import Mathlib

/-!
Verification development for the MCP client query-orchestration core.

Shallow embedding of the repository's Python modules:
  * `mcp_client/processing/query_processor.py` (`QueryProcessor.process_query`)
  * `mcp_client/processing/cache/cache_strategy.py` (`CacheStrategy`)
  * `mcp_client/server/server_manager.py` (`ServerManager`)

External effects (the Anthropic API, MCP sessions, subprocesses, the clock)
are modelled as explicit oracles; all embedded functions are total and
executable.
-/

namespace CoachClaude

/-! ## Blocks and tools (query_processor.py, lines 52-172)

A system content block is a dict `{'type': 'text', 'text': ..., 'cache_control'?}`.
We model the `text` field and the presence of the `'cache_control'` key
(`cached`).  A tool definition dict is modelled by its `name` and its
`'cache_control'` key. -/

structure SBlock where
  text : String
  cached : Bool
deriving DecidableEq, Repr

structure Tool where
  name : String
  cached : Bool
deriving DecidableEq, Repr

/-- `startsWithL as bs` : `bs` is a prefix of `as` (on character lists). -/
def startsWithL : List Char → List Char → Bool
  | _, [] => true
  | [], _ :: _ => false
  | a :: as, b :: bs => a = b && startsWithL as bs

/-- `subListOf hay needle` : `needle` occurs contiguously in `hay`
(Python `needle in hay` on strings). -/
def subListOf : List Char → List Char → Bool
  | _, [] => true
  | [], _ :: _ => false
  | a :: as, b :: bs => startsWithL (a :: as) (b :: bs) || subListOf as (b :: bs)

/-- Python `keyword.lower() in text.lower()`. -/
def containsKw (text kw : String) : Bool :=
  subListOf text.toLower.toList kw.toLower.toList

/-- `important_keywords` of `get_cache_priority`. -/
def importantKeywords : List String := ["personality", "context", "documentation", "system"]

/-- `get_cache_priority(content)` for a non-tool block, scaled by 1000.

The source computes the float `min(len(text)/1000, 50) + 10·#keywords` and
compares it with the integer thresholds 20 and 50 and with other priorities.
Scaling by 1000 turns it into the natural number
`min(len(text), 50000) + 10000·#keywords`; since the only float values that
arise are multiples of 1/1000 (and exact at the integer thresholds), every
comparison performed by the source coincides with the comparison of these
scaled naturals. -/
def cachePriority (b : SBlock) : ℕ :=
  min b.text.length 50000 + 10000 * (importantKeywords.countP (containsKw b.text))

/-- `get_cache_priority(tool, is_tool=True)` is the constant 100 (scaled: 100000). -/
def toolCachePriority : ℕ := 100000

/-- `MAX_CACHE_BLOCKS` of `process_query`. -/
def maxCacheBlocks : ℕ := 4

/-! ### Context messages fed to `process_query`

A context message is a dict with a `role` and a `content` that is either a
single dict block, a list of dict blocks, or a plain string. -/

inductive MsgContent where
  | blockC (b : SBlock)
  | listC (bs : List SBlock)
  | strC (s : String)
deriving DecidableEq, Repr

structure CtxMsg where
  role : String
  content : MsgContent
deriving DecidableEq, Repr

/-- A message of the running conversation (`messages` list): a role and a list
of text blocks (the source normalises every content shape to a list of
blocks). -/
structure Msg where
  role : String
  content : List SBlock
deriving DecidableEq, Repr

/-- Lines 92-95: for list-shaped system content, all blocks but the last are
appended to `system` as they are, without prioritisation. -/
def passBlocks (m : CtxMsg) : List SBlock :=
  if m.role = "system" then
    match m.content with
    | .listC bs => bs.dropLast
    | _ => []
  else []

/-- Lines 89-104: the block of a system message that enters prioritisation
(`content_block`); `none` for non-system messages and for empty list content. -/
def prioBlock (m : CtxMsg) : Option SBlock :=
  if m.role = "system" then
    match m.content with
    | .blockC b => some b
    | .listC bs => bs.getLast?
    | .strC s => some ⟨s, false⟩
  else none

/-- Lines 119-140: non-system messages are copied to `messages`, their content
normalised to a list of blocks. -/
def ctxMessage (m : CtxMsg) : Option Msg :=
  if m.role = "system" then none
  else some ⟨m.role, match m.content with
    | .blockC b => [b]
    | .listC bs => bs
    | .strC s => [⟨s, false⟩]⟩

/-- Lines 109-116: walk the priority-sorted system blocks with
`cache_slots = MAX_CACHE_BLOCKS - 1` remaining slots and the running
`cache_blocks` counter; a block is marked iff a slot remains and its priority
exceeds 20 (scaled: 20000).  Returns the appended blocks, the remaining
slots and the final counter. -/
def allocSystem : List (SBlock × ℕ) → ℕ → ℕ → List SBlock × ℕ × ℕ
  | [], slots, cnt => ([], slots, cnt)
  | (b, p) :: rest, slots, cnt =>
    if 0 < slots ∧ 20000 < p then
      let r := allocSystem rest (slots - 1) (cnt + 1)
      ({ b with cached := true } :: r.1, r.2)
    else
      let r := allocSystem rest slots cnt
      (b :: r.1, r.2)

/-- Lines 163-169: after the first tool is marked, further tools are marked
while `cache_blocks < MAX_CACHE_BLOCKS` and their priority exceeds 50
(scaled: 50000); reaching the ceiling breaks the loop. -/
def markExtraTools : List (Tool × ℕ) → ℕ → List Tool × ℕ
  | [], cnt => ([], cnt)
  | (t, p) :: rest, cnt =>
    if maxCacheBlocks ≤ cnt then (((t, p) :: rest).map (·.1), cnt)
    else if 50000 < p then
      let r := markExtraTools rest (cnt + 1)
      ({ t with cached := true } :: r.1, r.2)
    else
      let r := markExtraTools rest cnt
      (t :: r.1, r.2)

/-- Lines 153-169: when tools are available, the head of the priority-sorted
tool list is always marked provided `cache_blocks < MAX_CACHE_BLOCKS`, then
`markExtraTools` runs over the remaining ones. -/
def markTools : List (Tool × ℕ) → ℕ → List Tool × ℕ
  | [], cnt => ([], cnt)
  | (t0, p0) :: rest, cnt =>
    if cnt < maxCacheBlocks then
      let r := markExtraTools rest (cnt + 1)
      ({ t0 with cached := true } :: r.1, r.2)
    else (((t0, p0) :: rest).map (·.1), cnt)

/-- Result of the preparation phase of `process_query` (lines 52-172):
the `system` block list, the initial `messages`, the (possibly cache-marked)
`available_tools`, and the final `cache_blocks` counter. -/
structure PrepResult where
  system : List SBlock
  messages : List Msg
  tools : List Tool
  cacheBlocks : ℕ
deriving DecidableEq, Repr

/-- Descending stable sort by the second component, as Python's
`list.sort(key=lambda x: x[1], reverse=True)`. -/
def sortByPrio {α : Type} (l : List (α × ℕ)) : List (α × ℕ) :=
  l.mergeSort (fun a b => b.2 ≤ a.2)

/-- The preparation phase of `process_query` (lines 52-172): extract system
blocks from the context, prioritise and cache-mark them, collect the other
messages, append the environment-augmented query, and cache-mark the tools. -/
def prepare (context : List CtxMsg) (query env : String) (availableTools : List Tool) :
    PrepResult :=
  let pass := context.flatMap passBlocks
  let sysPairs := context.filterMap fun m => (prioBlock m).map fun b => (b, cachePriority b)
  let a := allocSystem (sortByPrio sysPairs) (maxCacheBlocks - 1) 0
  let msgs := context.filterMap ctxMessage
  let messages := msgs ++ [⟨"user", [⟨query ++ "\n\nEnvironment Details:\n" ++ env, false⟩]⟩]
  let toolPairs := availableTools.map fun t => (t, toolCachePriority)
  let tr := markTools (sortByPrio toolPairs) a.2.2
  ⟨pass ++ a.1, messages, tr.1, tr.2⟩

/-! ## The orchestration loop (query_processor.py, lines 174-382)

The Anthropic API is an oracle `api : ℕ → ApiResult` giving the outcome of
the n-th `messages.create` call of this query (counting retry calls), and
the registry's `call_tool` is an oracle `tool : String → String → ToolOutcome`.
Tool arguments and results are opaque serialised strings (`json.dumps`). -/

/-- A content block of a model response: free text or a tool invocation. -/
inductive CBlock where
  | text (s : String)
  | toolUse (name args : String)
deriving DecidableEq, Repr

/-- `response.usage` cache/token fields. -/
structure Usage where
  cacheCreation : ℕ
  cacheRead : ℕ
  input : ℕ
  output : ℕ
deriving DecidableEq, Repr

/-- Outcome of one `anthropic.messages.create` call (under its 30 s
`asyncio.wait_for`).  `usage = none` models a response whose usage object
lacks the cache fields (the `AttributeError` path, lines 234-241).
`errOverflow` is an exception whose text contains
"maximum of 4 blocks with cache_control"; `errTimeout` is
`asyncio.TimeoutError`; `errOther` is any other exception with text `msg`. -/
inductive ApiResult where
  | ok (content : List CBlock) (usage : Option Usage)
  | errOverflow (msg : String)
  | errTimeout
  | errOther (msg : String)
deriving DecidableEq, Repr

/-- Outcome of `server_manager.call_tool` as seen by `process_query`:
a result (serialised by `json.dumps(result, indent=2)`), `None`
(tool not found), or a raised exception. -/
inductive ToolOutcome where
  | ok (result : String)
  | notFound
  | exc (msg : String)
deriving DecidableEq, Repr

/-- One fragment of the returned transcript.  The source accumulates strings
joined by newlines; we keep them as structured fragments with the same
content and order.  `cachePerf u h?` stands for the "[Cache Performance]"
line group of lines 220-233, with `h? = some (read, total)` exactly when the
hit-rate line is emitted (`total_input > 0`). -/
inductive Fragment where
  | cachePerf (u : Usage) (hitRate : Option (ℕ × ℕ))
  | iterHeader (n : ℕ)
  | thinking (s : String)
  | toolCallDesc (name args : String)
  | toolResult (r : String)
  | errorFrag (s : String)
  | maxIterWarning
deriving DecidableEq, Repr

/-- One API request as assembled in `create_params` (lines 183-190 and
281-284): the system blocks, the tool definitions and the messages it was
issued with. -/
structure Request where
  system : List SBlock
  tools : List Tool
  messages : List Msg
deriving DecidableEq, Repr

/-- Result of a `process_query` run: the transcript fragments and the log of
API requests actually issued, in order. -/
structure RunResult where
  frags : List Fragment
  log : List Request
deriving DecidableEq, Repr

/-- `self.max_iterations` (line 21). -/
def maxIterations : ℕ := 10

/-- Lines 220-233: the cache-performance fragment built from a usage object
that has the cache fields; the hit-rate pair is present iff the total input
is positive. -/
def metricsFrags : Option Usage → List Fragment
  | none => []
  | some u =>
    let total := u.cacheCreation + u.cacheRead + u.input
    [.cachePerf u (if 0 < total then some (u.cacheRead, total) else none)]

/-- `CacheStrategy.remove_cache_control` / the `{k: v for k, v in b.items()
if k != 'cache_control'}` comprehensions: drop the cache marker. -/
def removeCacheControl (b : SBlock) : SBlock := { b with cached := false }

def removeCacheControlTool (t : Tool) : Tool := { t with cached := false }

/-- Retry strategy 1 (lines 253-258, `strategy_keep_recent_system`):
keep the two most recent system blocks as they are, strip the marker from
every earlier one; tools are passed through unchanged. -/
def strategyKeepRecentSystem (s : List SBlock) (t : List Tool) :
    List SBlock × List Tool :=
  (s.mapIdx (fun i b => if s.length - 2 ≤ i then b else removeCacheControl b), t)

/-- Retry strategy 2 (lines 259-264, `strategy_minimal_cache`): keep the last
system block and the first tool as they are, strip the marker from all
others.  `none` models the `IndexError` the source raises on `t[0]` when the
tool list is empty. -/
def strategyMinimalCache (s : List SBlock) (t : List Tool) :
    Option (List SBlock × List Tool) :=
  match t with
  | [] => none
  | t0 :: rest =>
    some (s.mapIdx (fun i b => if i = s.length - 1 then b else removeCacheControl b),
      t0 :: rest.map removeCacheControlTool)

/-- Retry strategy 3 (lines 265-269, `strategy_no_cache`): strip every
marker from system blocks and tools. -/
def strategyNoCache (s : List SBlock) (t : List Tool) :
    List SBlock × List Tool :=
  (s.map removeCacheControl, t.map removeCacheControlTool)

/-- The `retry_strategies` list in its fixed order (lines 252-270). -/
def applyStrategy : ℕ → List SBlock → List Tool → Option (List SBlock × List Tool)
  | 1, s, t => some (strategyKeepRecentSystem s t)
  | 2, s, t => strategyMinimalCache s t
  | 3, s, t => some (strategyNoCache s t)
  | _, _, _ => none

/-- Outcome of the overflow-recovery loop: either an early return of the
whole query with the given fragments, or a successful response content to
continue the iteration with. -/
inductive RecoverOut where
  | fail (frags : List Fragment) (log : List Request)
  | done (content : List CBlock) (cIdx : ℕ) (log : List Request)
deriving Repr

/-- The `for strategy_num, strategy in enumerate(retry_strategies, 1)` loop
(lines 273-312).  Each strategy is applied to copies of the original marked
blocks (not cumulatively); a recurring overflow error or a timeout advances
to the next strategy; any other error returns the query with a retry-error
fragment; exhausting all strategies returns the give-up fragment. -/
def recoverGo (api : ℕ → ApiResult) (sysC : List SBlock) (toolsC : List Tool)
    (messages : List Msg) : List ℕ → ℕ → List Request → RecoverOut
  | [], _, log =>
    .fail [.errorFrag "Failed to resolve cache block issues after trying all strategies"] log
  | k :: ks, cIdx, log =>
    match applyStrategy k sysC toolsC with
    | none =>
      .fail [.errorFrag "Claude API call failed on retry: list index out of range"] log
    | some st =>
      let req : Request := ⟨st.1, st.2, messages⟩
      match api cIdx with
      | .ok content _ => .done content (cIdx + 1) (log ++ [req])
      | .errTimeout => recoverGo api sysC toolsC messages ks (cIdx + 1) (log ++ [req])
      | .errOverflow _ => recoverGo api sysC toolsC messages ks (cIdx + 1) (log ++ [req])
      | .errOther msg =>
        .fail [.errorFrag ("Claude API call failed on retry: " ++ msg)] (log ++ [req])

/-- The request log carried by a recovery outcome. -/
def recoverLog : RecoverOut → List Request
  | .fail _ l => l
  | .done _ _ l => l

/-- Result of processing the content blocks of one response
(lines 328-373): the transcript fragments emitted, the synthetic messages
appended to the conversation, and whether a tool call was seen. -/
structure ContentRes where
  frags : List Fragment
  delta : List Msg
  hasTool : Bool
deriving DecidableEq, Repr

/-- The `for content in response.content` loop (lines 328-373).  Every
tool-use block is dispatched, in block order; each successfully resolved
call appends a synthetic assistant turn and a synthetic user turn to the
conversation. -/
def processContent (tool : String → String → ToolOutcome) :
    List CBlock → ContentRes
  | [] => ⟨[], [], false⟩
  | .text s :: rest =>
    let r := processContent tool rest
    ⟨.thinking s :: r.frags, r.delta, r.hasTool⟩
  | .toolUse name args :: rest =>
    let r := processContent tool rest
    match tool name args with
    | .notFound =>
      ⟨.toolCallDesc name args :: .errorFrag ("Tool " ++ name ++ " not found") :: r.frags,
        r.delta, true⟩
    | .exc msg =>
      ⟨.toolCallDesc name args ::
        .errorFrag ("Error executing tool " ++ name ++ ": " ++ msg) :: r.frags,
        r.delta, true⟩
    | .ok res =>
      ⟨.toolCallDesc name args :: .toolResult res :: r.frags,
        ⟨"assistant", [⟨"Using tool: " ++ name ++ " with arguments: " ++ args, false⟩]⟩ ::
          ⟨"user", [⟨"Tool result: " ++ res, false⟩]⟩ :: r.delta,
        true⟩

/-- Outcome of the tail of one loop iteration (lines 318-377): either the
loop continues with the extended conversation and transcript, or it breaks
(no tool call), the max-iterations warning being appended iff
`iteration >= self.max_iterations`. -/
inductive StepOut where
  | cont (messages : List Msg) (finalText : List Fragment)
  | halt (frags : List Fragment)
deriving DecidableEq, Repr

/-- The body of one iteration after a successful API call (lines 318-377):
emit the metrics fragments (empty on the recovery path), the iteration
header and the content fragments, extend the conversation, and either
continue or break. -/
def loopStep (tool : String → String → ToolOutcome) (iter' : ℕ)
    (messages : List Msg) (finalText : List Fragment)
    (metrics : List Fragment) (content : List CBlock) : StepOut :=
  let r := processContent tool content
  let finalText' := finalText ++ (metrics ++ [.iterHeader iter'] ++ r.frags)
  if r.hasTool then .cont (messages ++ r.delta) finalText'
  else
    .halt (if maxIterations ≤ iter' then finalText' ++ [.maxIterWarning] else finalText')

/-- The `while iteration < self.max_iterations` loop (lines 178-382).
`fuel` is `max_iterations - iteration`; `iter` is the Python `iteration`
variable; `cIdx` counts API calls made so far.  On loop exit the
max-iterations warning is appended iff `iteration >= self.max_iterations`
(lines 379-380).  Note that the early error returns discard `final_text`,
exactly as the source's `return f"\n[Error]..."` statements do
(`asyncio.TimeoutError` is caught by the generic handler with an empty
`str(e)`). -/
def loopGo (api : ℕ → ApiResult) (tool : String → String → ToolOutcome)
    (system : List SBlock) (tools : List Tool) :
    ℕ → ℕ → ℕ → List Msg → List Fragment → List Request → RunResult
  | 0, iter, _, _, finalText, log =>
    ⟨if maxIterations ≤ iter then finalText ++ [.maxIterWarning] else finalText, log⟩
  | fuel + 1, iter, cIdx, messages, finalText, log =>
    let iter' := iter + 1
    let log := log ++ [(⟨system, tools, messages⟩ : Request)]
    match api cIdx with
    | .ok content usage =>
      match loopStep tool iter' messages finalText (metricsFrags usage) content with
      | .cont messages' finalText' =>
        loopGo api tool system tools fuel iter' (cIdx + 1) messages' finalText' log
      | .halt frags => ⟨frags, log⟩
    | .errOther msg => ⟨[.errorFrag ("Claude API call failed: " ++ msg)], log⟩
    | .errTimeout => ⟨[.errorFrag "Claude API call failed: "], log⟩
    | .errOverflow _ =>
      match recoverGo api system tools messages [1, 2, 3] (cIdx + 1) log with
      | .fail frags log' => ⟨frags, log'⟩
      | .done content cIdx' log' =>
        match loopStep tool iter' messages finalText [] content with
        | .cont messages' finalText' =>
          loopGo api tool system tools fuel iter' cIdx' messages' finalText' log'
        | .halt frags => ⟨frags, log'⟩

/-- The loop part of `process_query`, entered with the prepared system
blocks, tools and messages. -/
def processQueryLoop (system : List SBlock) (tools : List Tool)
    (messages : List Msg) (api : ℕ → ApiResult)
    (tool : String → String → ToolOutcome) : RunResult :=
  loopGo api tool system tools maxIterations 0 0 messages [] []

/-- `QueryProcessor.process_query` (lines 48-382): preparation followed by
the orchestration loop. -/
def processQuery (context : List CtxMsg) (query env : String)
    (availableTools : List Tool) (api : ℕ → ApiResult)
    (tool : String → String → ToolOutcome) : RunResult :=
  let p := prepare context query env availableTools
  processQueryLoop p.system p.tools p.messages api tool

/-! ## Timed model of the orchestration loop

The same control flow, with each awaited operation consuming wall-clock
time: the n-th API call takes `apiDur n` seconds (truncated to
`api_timeout = 30` by its `asyncio.wait_for`, which turns a longer call into
an `asyncio.TimeoutError`), and the n-th `call_tool` invocation takes
`toolDur n` seconds (`process_query` awaits it with no timeout, line 345).
The source never consults an overall deadline, so the only clock influence
on control flow is the per-call 30 s API bound. -/

/-- `self.api_timeout` (line 22). -/
def apiTimeout : ℕ := 30

/-- Timed `processContent`: threads the tool-call counter and the elapsed
clock through the block loop. -/
def processContentT (tool : String → String → ToolOutcome) (toolDur : ℕ → ℕ) :
    List CBlock → ℕ → ℕ → ContentRes × ℕ × ℕ
  | [], tIdx, elapsed => (⟨[], [], false⟩, tIdx, elapsed)
  | .text s :: rest, tIdx, elapsed =>
    let r := processContentT tool toolDur rest tIdx elapsed
    (⟨.thinking s :: r.1.frags, r.1.delta, r.1.hasTool⟩, r.2)
  | .toolUse name args :: rest, tIdx, elapsed =>
    let r := processContentT tool toolDur rest (tIdx + 1) (elapsed + toolDur tIdx)
    match tool name args with
    | .notFound =>
      (⟨.toolCallDesc name args :: .errorFrag ("Tool " ++ name ++ " not found") :: r.1.frags,
        r.1.delta, true⟩, r.2)
    | .exc msg =>
      (⟨.toolCallDesc name args ::
        .errorFrag ("Error executing tool " ++ name ++ ": " ++ msg) :: r.1.frags,
        r.1.delta, true⟩, r.2)
    | .ok res =>
      (⟨.toolCallDesc name args :: .toolResult res :: r.1.frags,
        ⟨"assistant", [⟨"Using tool: " ++ name ++ " with arguments: " ++ args, false⟩]⟩ ::
          ⟨"user", [⟨"Tool result: " ++ res, false⟩]⟩ :: r.1.delta,
        true⟩, r.2)

/-- Timed `loopStep`. -/
def loopStepT (tool : String → String → ToolOutcome) (toolDur : ℕ → ℕ) (iter' : ℕ)
    (messages : List Msg) (finalText : List Fragment)
    (metrics : List Fragment) (content : List CBlock) (tIdx elapsed : ℕ) :
    StepOut × ℕ × ℕ :=
  let r := processContentT tool toolDur content tIdx elapsed
  let finalText' := finalText ++ (metrics ++ [.iterHeader iter'] ++ r.1.frags)
  (if r.1.hasTool then .cont (messages ++ r.1.delta) finalText'
   else .halt (if maxIterations ≤ iter' then finalText' ++ [.maxIterWarning] else finalText'),
   r.2)

/-- Timed recovery loop: an API call longer than `api_timeout` is cut off
after 30 s by `asyncio.wait_for` and handled as a timeout (next strategy,
lines 298-300). -/
def recoverGoT (api : ℕ → ApiResult) (apiDur : ℕ → ℕ) (sysC : List SBlock)
    (toolsC : List Tool) (messages : List Msg) :
    List ℕ → ℕ → List Request → ℕ → RecoverOut × ℕ
  | [], _, log, elapsed =>
    (.fail [.errorFrag "Failed to resolve cache block issues after trying all strategies"] log,
      elapsed)
  | k :: ks, cIdx, log, elapsed =>
    match applyStrategy k sysC toolsC with
    | none =>
      (.fail [.errorFrag "Claude API call failed on retry: list index out of range"] log,
        elapsed)
    | some st =>
      let req : Request := ⟨st.1, st.2, messages⟩
      let elapsed' := elapsed + min (apiDur cIdx) apiTimeout
      if apiTimeout < apiDur cIdx then
        recoverGoT api apiDur sysC toolsC messages ks (cIdx + 1) (log ++ [req]) elapsed'
      else
        match api cIdx with
        | .ok content _ => (.done content (cIdx + 1) (log ++ [req]), elapsed')
        | .errTimeout =>
          recoverGoT api apiDur sysC toolsC messages ks (cIdx + 1) (log ++ [req]) elapsed'
        | .errOverflow _ =>
          recoverGoT api apiDur sysC toolsC messages ks (cIdx + 1) (log ++ [req]) elapsed'
        | .errOther msg =>
          (.fail [.errorFrag ("Claude API call failed on retry: " ++ msg)] (log ++ [req]),
            elapsed')

/-- Timed orchestration loop: identical control flow to `loopGo`, additionally
accumulating elapsed wall-clock seconds.  No branch compares the elapsed
time with any overall deadline, mirroring the absence of such a deadline in
the source. -/
def loopGoT (api : ℕ → ApiResult) (apiDur : ℕ → ℕ)
    (tool : String → String → ToolOutcome) (toolDur : ℕ → ℕ)
    (system : List SBlock) (tools : List Tool) :
    ℕ → ℕ → ℕ → ℕ → List Msg → List Fragment → List Request → ℕ → RunResult × ℕ
  | 0, iter, _, _, _, finalText, log, elapsed =>
    (⟨if maxIterations ≤ iter then finalText ++ [.maxIterWarning] else finalText, log⟩,
      elapsed)
  | fuel + 1, iter, cIdx, tIdx, messages, finalText, log, elapsed =>
    let iter' := iter + 1
    let log := log ++ [(⟨system, tools, messages⟩ : Request)]
    let elapsed := elapsed + min (apiDur cIdx) apiTimeout
    if apiTimeout < apiDur cIdx then
      (⟨[.errorFrag "Claude API call failed: "], log⟩, elapsed)
    else
      match api cIdx with
      | .ok content usage =>
        match loopStepT tool toolDur iter' messages finalText (metricsFrags usage) content
            tIdx elapsed with
        | (.cont messages' finalText', tIdx', elapsed') =>
          loopGoT api apiDur tool toolDur system tools fuel iter' (cIdx + 1) tIdx'
            messages' finalText' log elapsed'
        | (.halt frags, _, elapsed') => (⟨frags, log⟩, elapsed')
      | .errOther msg => (⟨[.errorFrag ("Claude API call failed: " ++ msg)], log⟩, elapsed)
      | .errTimeout => (⟨[.errorFrag "Claude API call failed: "], log⟩, elapsed)
      | .errOverflow _ =>
        match recoverGoT api apiDur system tools messages [1, 2, 3] (cIdx + 1) log elapsed with
        | (.fail frags log', elapsed') => (⟨frags, log'⟩, elapsed')
        | (.done content cIdx' log', elapsed') =>
          match loopStepT tool toolDur iter' messages finalText [] content tIdx elapsed' with
          | (.cont messages' finalText', tIdx', elapsed'') =>
            loopGoT api apiDur tool toolDur system tools fuel iter' cIdx' tIdx'
              messages' finalText' log' elapsed''
          | (.halt frags, _, elapsed'') => (⟨frags, log'⟩, elapsed'')

/-- The timed loop part of `process_query`. -/
def processQueryLoopT (system : List SBlock) (tools : List Tool)
    (messages : List Msg) (api : ℕ → ApiResult) (apiDur : ℕ → ℕ)
    (tool : String → String → ToolOutcome) (toolDur : ℕ → ℕ) : RunResult × ℕ :=
  loopGoT api apiDur tool toolDur system tools maxIterations 0 0 0 messages [] [] 0

/-! ## ServerManager (server_manager.py)

The registry state: the `self.servers` dict (insertion-ordered keys), the
`self.connected_servers` set, the `self.server_processes` dict (each process
with its `poll()` status), and `self.last_health_checks` timestamps
(seconds).  Sets and dicts are modelled as lists of distinct names. -/

structure Registry where
  servers : List String
  connected : List String
  processes : List (String × Bool)
  lastChecks : List (String × ℕ)
deriving DecidableEq, Repr

/-- Whether `server_name in self.server_processes` and that process has
exited (`poll() is not None`). -/
def procExited (reg : Registry) (name : String) : Bool :=
  (reg.processes.filter (fun p => p.1 = name)).any (·.2)

def hasProc (reg : Registry) (name : String) : Bool :=
  reg.processes.any (fun p => p.1 = name)

/-- `ServerManager.cleanup_server` (lines 626-682): discard the name from
`connected_servers`, delete it from `servers`, terminate/kill the tracked
process and delete it from `server_processes`.  All failures are caught and
logged, so the state effect is exactly the removal of the three entries.
(`last_health_checks` is not touched by cleanup.) -/
def cleanupServer (reg : Registry) (name : String) : Registry :=
  ⟨reg.servers.filter (fun n => ¬ n = name),
    reg.connected.filter (fun n => ¬ n = name),
    reg.processes.filter (fun p => ¬ p.1 = name),
    reg.lastChecks⟩

/-- Outcome of the liveness probe of `_check_server_health` when the quick
`session.initialize()` ping (5 s) has failed: the fallback
`session.list_tools()` call (30 s), which may return `n` tools, an
invalid/falsy response, time out, or raise. -/
inductive ToolsProbe where
  | toolsOk (n : ℕ)
  | invalid
  | timeoutP
  | failP
deriving DecidableEq, Repr

/-- The probe behaviour of one server's session during a health check:
whether the quick `initialize()` ping succeeds, the fallback `list_tools()`
outcome, and whether an unexpected exception escapes to the outer handler
(lines 229-234). -/
structure ProbeBehavior where
  quickInitOk : Bool
  toolsOutcome : ToolsProbe
  unexpectedErr : Bool
deriving DecidableEq, Repr

/-- Result of `_check_server_health`: the returned boolean, the registry
state at the moment the call returns, and whether a cleanup task was merely
*scheduled* (`asyncio.create_task(self.cleanup_server(...))`, line 233)
rather than performed within the call. -/
structure HealthRes where
  verdict : Bool
  reg : Registry
  scheduledCleanup : Bool
deriving DecidableEq, Repr

/-- `ServerManager._check_server_health` (lines 173-234):
absent server → false; tracked process exited → synchronous
`cleanup_server` then false; quick `initialize()` ping success → healthy,
timestamp updated; otherwise the fallback `list_tools()` decides: a
response with at least one tool is healthy (timestamp updated), a response
with zero tools, an invalid response, a timeout or an exception each return
false *without* touching the registry; an unexpected exception returns
false after only scheduling an asynchronous cleanup. -/
def checkServerHealth (reg : Registry) (name : String)
    (probe : String → ProbeBehavior) (now : ℕ) : HealthRes :=
  if (probe name).unexpectedErr then ⟨false, reg, true⟩
  else if ¬ reg.servers.contains name then ⟨false, reg, false⟩
  else if procExited reg name then ⟨false, cleanupServer reg name, false⟩
  else if (probe name).quickInitOk then
    ⟨true, { reg with lastChecks := (name, now) :: reg.lastChecks.filter (¬ ·.1 = name) },
      false⟩
  else
    match (probe name).toolsOutcome with
    | .toolsOk 0 => ⟨false, reg, false⟩
    | .toolsOk (_ + 1) =>
      ⟨true, { reg with lastChecks := (name, now) :: reg.lastChecks.filter (¬ ·.1 = name) },
        false⟩
    | .invalid => ⟨false, reg, false⟩
    | .timeoutP => ⟨false, reg, false⟩
    | .failP => ⟨false, reg, false⟩

/-- The re-check condition of `check_servers_health` (lines 414-415):
no recorded check, or the recorded check is strictly older than
`health_check_interval` seconds. -/
def dueForCheck (lastChecks : List (String × ℕ)) (now interval : ℕ)
    (name : String) : Bool :=
  match (lastChecks.filter (fun p => p.1 = name)).head? with
  | none => true
  | some p => interval < now - p.2

/-- The `for server_name in sorted(self.connected_servers)` loop of
`check_servers_health`: returns the names actually probed (in order) and
either `()` or the `ConnectionError` message.  The health verdict of a
probed server is abstracted by the oracle `health`. -/
def checkServersHealthGo (health : String → Bool) (due : String → Bool) :
    List String → List String × Except String Unit
  | [] => ([], .ok ())
  | n :: rest =>
    if due n then
      if health n then
        let r := checkServersHealthGo health due rest
        (n :: r.1, r.2)
      else ([n], .error ("Server health check failed for " ++ n))
    else checkServersHealthGo health due rest

/-- `ServerManager.check_servers_health` (lines 410-417): iterate the
connected servers in sorted order, re-check those due, and raise a
`ConnectionError` naming the first unhealthy one. -/
def checkServersHealth (connected : List String) (lastChecks : List (String × ℕ))
    (now interval : ℕ) (health : String → Bool) : List String × Except String Unit :=
  checkServersHealthGo health (dueForCheck lastChecks now interval)
    (connected.mergeSort (· ≤ ·))

/-! ### `connect_to_server` (lines 236-408)

One loop iteration either fails before the stdio block is entered
(`setupErr`: config/env/parameter errors caught by the *outer* handler at
line 400, which increments `retry_count` and retries), or enters the inner
`try` at line 270, where every failure — stdio connection, networking
init, process death, session-initialize timeout/failure, list-tools
timeout/failure/empty — executes a plain `return False` with no retry
(`connFail` collapses these), or succeeds (`ok`). -/

inductive AttemptOutcome where
  | setupErr (msg : String)
  | connFail (msg : String)
  | ok
deriving DecidableEq, Repr

/-- Result of `connect_to_server`: the returned boolean, the number of loop
iterations that performed a connection attempt, and the backoff delays slept
(in order). -/
structure ConnectResult where
  success : Bool
  attempts : ℕ
  delays : List ℕ
deriving DecidableEq, Repr

/-- `self.max_retries` (line 39). -/
def maxRetries : ℕ := 3

/-- `self.retry_delay` (line 40). -/
def retryDelay : ℕ := 1

/-- The `while retry_count < self.max_retries and (time.time() - start_time)
< timeout` loop of `connect_to_server`.  `fuel = max_retries - retry_count`;
`rc` is `retry_count`; before a retry (rc > 0) the loop sleeps
`min(retry_delay * 2**(rc-1), 10)` seconds; an absent config entry returns
false; the attempt outcome is given by the oracle `attempt`, the attempt's
own duration by `dur`. -/
def connectGo (cfgHas : Bool) (attempt : ℕ → AttemptOutcome) (dur : ℕ → ℕ)
    (timeout : ℕ) : ℕ → ℕ → ℕ → List ℕ → ℕ → ConnectResult
  | 0, _, _, delays, made => ⟨false, made, delays⟩
  | fuel + 1, rc, elapsed, delays, made =>
    if elapsed < timeout then
      let d? : List ℕ := if 0 < rc then [min (retryDelay * 2 ^ (rc - 1)) 10] else []
      let delays := delays ++ d?
      let elapsed := elapsed + d?.sum
      if cfgHas then
        match attempt rc with
        | .setupErr _ =>
          connectGo cfgHas attempt dur timeout fuel (rc + 1) (elapsed + dur rc) delays (made + 1)
        | .connFail _ => ⟨false, made + 1, delays⟩
        | .ok => ⟨true, made + 1, delays⟩
      else ⟨false, made, delays⟩
    else ⟨false, made, delays⟩

/-- `ServerManager.connect_to_server` (lines 236-408), with default
`timeout = 120`. -/
def connectToServer (cfgHas : Bool) (attempt : ℕ → AttemptOutcome)
    (dur : ℕ → ℕ) (timeout : ℕ) : ConnectResult :=
  connectGo cfgHas attempt dur timeout maxRetries 0 0 [] 0

/-! ### `call_tool` (lines 497-624)

Each entry of `self.servers` is modelled with its health verdict (the
result `_check_server_health` would return inside this call), its
`list_tools()` outcome (`none` collapses the invalid-response, timeout and
exception cases, all of which add the server to `failed_servers`), and the
outcome of its `session.call_tool` attempts (indexed 0 and 1).  The
registry mutations performed by cleanups along the way do not affect the
returned value and are not tracked here; only the `failed_servers` set
is. -/

/-- An extracted content block of a tool response (`{"type": ..., "text": ...}`). -/
structure FmtB where
  type : String
  text : String
deriving DecidableEq, Repr

/-- Outcome of one `session.call_tool` attempt under its `asyncio.wait_for`:
a truthy response whose extracted text blocks are `blocks` (possibly empty),
a falsy response, a timeout, or an exception (with `isConn` true when its
text contains "connection", triggering cleanup and `failed_servers`). -/
inductive CallOutcome where
  | okC (blocks : List FmtB)
  | emptyResp
  | timeoutC
  | errC (msg : String) (isConn : Bool)
deriving DecidableEq, Repr

/-- One entry of `self.servers`, in registration (dict-insertion) order. -/
structure SrvT where
  name : String
  healthy : Bool
  toolsResp : Option (List String)
  call : ℕ → CallOutcome

/-- The dict returned on success (lines 575-580); the constant
`"result": "success"` field is omitted. -/
structure CallResult where
  tool : String
  args : String
  response : List FmtB
deriving DecidableEq, Repr

/-- Whether the scan moves on to the next server, and whether the current
one is added to `failed_servers`. -/
inductive AttemptRes where
  | ret (r : CallResult)
  | giveUp (markFailed : Bool)
deriving DecidableEq, Repr

/-- Second `session.call_tool` attempt (`attempt = 1`, lines 543-593): a
truthy response is returned even when its extracted content is empty
(lines 570-580); a falsy response or a timeout breaks to the next server;
an exception breaks, marking the server failed when it is a connection
error. -/
def srvAttempt2 (s : SrvT) (name args : String) : AttemptRes :=
  match s.call 1 with
  | .okC blocks => .ret ⟨name, args, blocks⟩
  | .emptyResp => .giveUp false
  | .timeoutC => .giveUp false
  | .errC _ conn => .giveUp conn

/-- First `session.call_tool` attempt (`attempt = 0`): a truthy response
with non-empty extracted content is returned; a falsy response, a timeout
or an empty extraction is retried once; an exception breaks immediately. -/
def srvAttempt1 (s : SrvT) (name args : String) : AttemptRes :=
  match s.call 0 with
  | .okC blocks => if blocks.isEmpty then srvAttempt2 s name args else .ret ⟨name, args, blocks⟩
  | .emptyResp => srvAttempt2 s name args
  | .timeoutC => srvAttempt2 s name args
  | .errC _ conn => .giveUp conn

/-- The `for server_name, server_info in self.servers.items()` scan
(lines 514-605): skip servers already failed, mark unhealthy or
invalid-listing servers failed, skip servers whose tool list does not
contain `name`, and attempt the call on the first one whose list does. -/
def scanGo (name args : String) : List SrvT → List String → Option CallResult × List String
  | [], failed => (none, failed)
  | s :: rest, failed =>
    if failed.contains s.name then scanGo name args rest failed
    else if ¬ s.healthy then scanGo name args rest (failed ++ [s.name])
    else
      match s.toolsResp with
      | none => scanGo name args rest (failed ++ [s.name])
      | some ts =>
        if ¬ ts.contains name then scanGo name args rest failed
        else
          match srvAttempt1 s name args with
          | .ret r => (some r, failed)
          | .giveUp mf => scanGo name args rest (if mf then failed ++ [s.name] else failed)

/-- The `while retry_count <= max_retries` loop of `call_tool`
(lines 513-621, with the local `max_retries = 2`): rescan after attempting
to reconnect the failed servers, but only when *every* server failed and
retry budget remains.  `fuel + 1 = 3 - retry_count`. -/
def callToolGo (servers : List SrvT) (name args : String)
    (reconnectOk : String → Bool) : ℕ → List String → Option CallResult
  | 0, _ => none
  | fuel + 1, failed =>
    match scanGo name args servers failed with
    | (some r, _) => some r
    | (none, failed') =>
      if failed'.length = servers.length then
        if 0 < fuel then
          callToolGo servers name args reconnectOk fuel
            (failed'.filter (fun n => ¬ reconnectOk n))
        else none
      else none

/-- `ServerManager.call_tool` (lines 497-624).  `argsIsDict` models the
`isinstance(tool_args, dict)` guard (line 501); `reconnectOk n` is whether
`connect_to_server(n)` would succeed during the all-failed reconnection
round. -/
def callTool (servers : List SrvT) (name args : String) (argsIsDict : Bool)
    (reconnectOk : String → Bool) : Option CallResult :=
  if ¬ argsIsDict then none
  else callToolGo servers name args reconnectOk 3 []

/-- The content blocks of a server's first `call_tool` attempt, when that
attempt returns a response. -/
def callBlocks (s : SrvT) : List FmtB :=
  match s.call 0 with
  | .okC bs => bs
  | _ => []

/-- Whether a content block is a tool invocation. -/
def isToolUseB : CBlock → Bool
  | .toolUse _ _ => true
  | .text _ => false

/-- The synthetic conversation turns one content block contributes
(lines 355-369): a successfully resolved tool call appends one assistant
turn and one user (tool-result) turn; text blocks and failed calls append
nothing. -/
def deltaOf (tool : String → String → ToolOutcome) : CBlock → List Msg
  | .text _ => []
  | .toolUse name args =>
    match tool name args with
    | .ok res =>
      [⟨"assistant", [⟨"Using tool: " ++ name ++ " with arguments: " ++ args, false⟩]⟩,
       ⟨"user", [⟨"Tool result: " ++ res, false⟩]⟩]
    | .notFound => []
    | .exc _ => []

/-- The transcript fragments one content block contributes (lines 328-373). -/
def fragOf (tool : String → String → ToolOutcome) : CBlock → List Fragment
  | .text s => [.thinking s]
  | .toolUse name args =>
    .toolCallDesc name args ::
      (match tool name args with
       | .ok res => [.toolResult res]
       | .notFound => [.errorFrag ("Tool " ++ name ++ " not found")]
       | .exc msg => [.errorFrag ("Error executing tool " ++ name ++ ": " ++ msg)])

/-- All blocks carried by a context message's content. -/
def ctxBlocks (m : CtxMsg) : List SBlock :=
  match m.content with
  | .blockC b => [b]
  | .listC bs => bs
  | .strC _ => []

/-! ## Helper lemmas -/

lemma allocSystem_cnt_le (bs : List (SBlock × ℕ)) (slots cnt : ℕ) :
    (allocSystem bs slots cnt).2.2 ≤ cnt + slots := by
  induction bs generalizing slots cnt with
  | nil => simp [allocSystem]
  | cons hd tl ih =>
    obtain ⟨b, p⟩ := hd
    by_cases hc : 0 < slots ∧ 20000 < p
    · have := ih (slots - 1) (cnt + 1)
      simp only [allocSystem, if_pos hc]
      omega
    · have := ih slots cnt
      simp only [allocSystem, if_neg hc]
      omega

lemma allocSystem_le_cnt (bs : List (SBlock × ℕ)) (slots cnt : ℕ) :
    cnt ≤ (allocSystem bs slots cnt).2.2 := by
  induction bs generalizing slots cnt with
  | nil => simp [allocSystem]
  | cons hd tl ih =>
    obtain ⟨b, p⟩ := hd
    by_cases hc : 0 < slots ∧ 20000 < p
    · have := ih (slots - 1) (cnt + 1)
      simp only [allocSystem, if_pos hc]
      omega
    · have := ih slots cnt
      simp only [allocSystem, if_neg hc]
      omega

lemma allocSystem_countP (bs : List (SBlock × ℕ)) (slots cnt : ℕ)
    (h : ∀ x ∈ bs, x.1.cached = false) :
    ((allocSystem bs slots cnt).1.countP (·.cached)) + cnt = (allocSystem bs slots cnt).2.2 := by
  induction bs generalizing slots cnt with
  | nil => simp [allocSystem]
  | cons hd tl ih =>
    obtain ⟨b, p⟩ := hd
    have hb : b.cached = false := h (b, p) (by simp)
    have htl : ∀ x ∈ tl, x.1.cached = false := fun x hx => h x (by simp [hx])
    by_cases hc : 0 < slots ∧ 20000 < p
    · have := ih (slots - 1) (cnt + 1) htl
      simp only [allocSystem, if_pos hc, List.countP_cons]
      simp only [List.countP_cons] at this
      simp
      omega
    · have := ih slots cnt htl
      simp only [allocSystem, if_neg hc, List.countP_cons, hb]
      simp
      omega

lemma markExtraTools_le (ts : List (Tool × ℕ)) (cnt : ℕ) (h : cnt ≤ maxCacheBlocks) :
    (markExtraTools ts cnt).2 ≤ maxCacheBlocks := by
  induction ts generalizing cnt with
  | nil => simpa [markExtraTools]
  | cons hd tl ih =>
    obtain ⟨t, p⟩ := hd
    by_cases hc : maxCacheBlocks ≤ cnt
    · simpa [markExtraTools, hc]
    · by_cases hp : 50000 < p
      · have := ih (cnt + 1) (by omega)
        simpa [markExtraTools, hc, hp]
      · have := ih cnt h
        simpa [markExtraTools, hc, hp]

lemma markExtraTools_countP (ts : List (Tool × ℕ)) (cnt : ℕ)
    (h : ∀ x ∈ ts, x.1.cached = false) :
    (markExtraTools ts cnt).1.countP (·.cached) + cnt = (markExtraTools ts cnt).2 := by
  induction ts generalizing cnt with
  | nil => simp [markExtraTools]
  | cons hd tl ih =>
    obtain ⟨t, p⟩ := hd
    have ht : t.cached = false := h (t, p) (by simp)
    have htl : ∀ x ∈ tl, x.1.cached = false := fun x hx => h x (by simp [hx])
    by_cases hc : maxCacheBlocks ≤ cnt
    · have hz : (((t, p) :: tl).map (·.1)).countP (·.cached) = 0 := by
        refine List.countP_eq_zero.mpr ?_
        intro x hx
        rcases List.mem_map.mp hx with ⟨y, hy, rfl⟩
        simp [h y hy]
      simp only [markExtraTools, if_pos hc]
      rw [hz]
      omega
    · by_cases hp : 50000 < p
      · have := ih (cnt + 1) htl
        simp only [markExtraTools, if_neg hc, if_pos hp, List.countP_cons]
        simp
        omega
      · have := ih cnt htl
        simp only [markExtraTools, if_neg hc, if_neg hp, List.countP_cons, ht]
        simp
        omega

lemma markTools_spec (ts : List (Tool × ℕ)) (cnt : ℕ)
    (h : ∀ x ∈ ts, x.1.cached = false) (hcnt : cnt < maxCacheBlocks) :
    (markTools ts cnt).1.countP (·.cached) + cnt = (markTools ts cnt).2 ∧
    (markTools ts cnt).2 ≤ maxCacheBlocks ∧
    (ts ≠ [] → 0 < (markTools ts cnt).1.countP (·.cached)) := by
  match ts with
  | [] =>
    refine ⟨by simp [markTools], by simpa [markTools] using hcnt.le, by simp⟩
  | (t0, p0) :: rest =>
    have hrest : ∀ x ∈ rest, x.1.cached = false := fun x hx => h x (by simp [hx])
    have h1 := markExtraTools_countP rest (cnt + 1) hrest
    have h2 := markExtraTools_le rest (cnt + 1) (by omega)
    refine ⟨?_, ?_, ?_⟩
    · simp only [markTools, if_pos hcnt, List.countP_cons]
      simp
      omega
    · simpa [markTools, if_pos hcnt] using h2
    · intro _
      simp [markTools, if_pos hcnt, List.countP_cons]

lemma prioBlock_uncached (m : CtxMsg) (hm : ∀ b ∈ ctxBlocks m, b.cached = false)
    (b : SBlock) (hb : prioBlock m = some b) : b.cached = false := by
  unfold prioBlock at hb
  by_cases hr : m.role = "system"
  · rw [if_pos hr] at hb
    match hc : m.content with
    | .blockC b2 =>
      rw [hc] at hb
      rw [← Option.some.inj hb]
      exact hm b2 (by simp [ctxBlocks, hc])
    | .listC bs =>
      rw [hc] at hb
      have hmem : b ∈ bs := by
        rcases List.mem_getLast?_eq_getLast (by simpa using hb) with ⟨hne, rfl⟩
        exact List.getLast_mem hne
      exact hm b (by simp [ctxBlocks, hc, hmem])
    | .strC s =>
      rw [hc] at hb
      rw [← Option.some.inj hb]
  · rw [if_neg hr] at hb
    cases hb

lemma pass_uncached (context : List CtxMsg)
    (hctx : ∀ m ∈ context, ∀ b ∈ ctxBlocks m, b.cached = false) :
    (context.flatMap passBlocks).countP (·.cached) = 0 := by
  refine List.countP_eq_zero.mpr ?_
  intro b hb
  rcases List.mem_flatMap.mp hb with ⟨m, hm, hbm⟩
  unfold passBlocks at hbm
  by_cases hr : m.role = "system"
  · rw [if_pos hr] at hbm
    match hc : m.content with
    | .blockC b' => rw [hc] at hbm; cases hbm
    | .listC bs =>
      rw [hc] at hbm
      have : b ∈ bs := List.dropLast_subset bs hbm
      simp [hctx m hm b (by simp [ctxBlocks, hc, this])]
    | .strC s => rw [hc] at hbm; cases hbm
  · rw [if_neg hr] at hbm
    cases hbm

lemma sysPairs_uncached (context : List CtxMsg)
    (hctx : ∀ m ∈ context, ∀ b ∈ ctxBlocks m, b.cached = false) :
    ∀ x ∈ sortByPrio (context.filterMap fun m =>
        (prioBlock m).map fun b => (b, cachePriority b)),
      x.1.cached = false := by
  intro x hx
  rw [sortByPrio, List.mem_mergeSort] at hx
  rcases List.mem_filterMap.mp hx with ⟨m, hm, hfm⟩
  rcases Option.map_eq_some'.mp hfm with ⟨b, hb, rfl⟩
  exact prioBlock_uncached m (hctx m hm) b hb

lemma checkServersHealthGo_spec (health due : String → Bool) (l : List String) :
    checkServersHealthGo health due l =
      ((l.filter due).takeWhile health ++ ((l.filter due).dropWhile health).take 1,
       match (l.filter due).find? (fun n => ¬ health n) with
       | some n => Except.error ("Server health check failed for " ++ n)
       | none => Except.ok ()) := by
  induction l with
  | nil => simp [checkServersHealthGo]
  | cons n rest ih =>
    by_cases hdue : due n = true
    · by_cases hh : health n = true
      · simp [checkServersHealthGo, hdue, hh, ih, List.takeWhile_cons, List.dropWhile_cons,
          List.find?]
      · simp only [Bool.not_eq_true] at hh
        simp [checkServersHealthGo, hdue, hh, List.takeWhile_cons, List.dropWhile_cons,
          List.find?]
    · simp only [Bool.not_eq_true] at hdue
      simp [checkServersHealthGo, hdue, ih]

lemma scanGo_spec (name args : String) (servers : List SrvT)
    (hh : ∀ s ∈ servers, s.healthy = true)
    (ht : ∀ s ∈ servers, s.toolsResp ≠ none)
    (hc : ∀ s ∈ servers, callBlocks s ≠ [] ∧ s.call 0 = .okC (callBlocks s)) :
    scanGo name args servers [] =
      ((servers.find? fun s => (s.toolsResp.getD []).contains name).map
        fun s => (⟨name, args, callBlocks s⟩ : CallResult), []) := by
  induction servers with
  | nil => simp [scanGo]
  | cons s rest ih =>
    have hs := hh s (by simp)
    have hts := ht s (by simp)
    have hcs := hc s (by simp)
    obtain ⟨ts, hts'⟩ : ∃ ts, s.toolsResp = some ts := by
      cases h : s.toolsResp with
      | none => exact absurd h hts
      | some ts => exact ⟨ts, rfl⟩
    have ihr := ih (fun x hx => hh x (by simp [hx])) (fun x hx => ht x (by simp [hx]))
      (fun x hx => hc x (by simp [hx]))
    by_cases hfind : name ∈ ts
    · have hatt : srvAttempt1 s name args = .ret ⟨name, args, callBlocks s⟩ := by
        rw [srvAttempt1, hcs.2]
        simp [List.isEmpty_iff, hcs.1]
      simp [scanGo, hs, hts', hfind, hatt, List.find?]
    · simp [scanGo, hs, hts', hfind, ihr, List.find?]

lemma processContent_hasTool (tool : String → String → ToolOutcome) (c : List CBlock) :
    (processContent tool c).hasTool = c.any isToolUseB := by
  induction c with
  | nil => simp [processContent, isToolUseB]
  | cons b rest ih =>
    cases b with
    | text s => simp [processContent, isToolUseB, ih]
    | toolUse name args =>
      cases htool : tool name args <;>
        simp [processContent, isToolUseB, htool, ih]

lemma processContent_spec (tool : String → String → ToolOutcome) (c : List CBlock) :
    (processContent tool c).frags = c.flatMap (fragOf tool) ∧
    (processContent tool c).delta = c.flatMap (deltaOf tool) := by
  induction c with
  | nil => simp [processContent]
  | cons b rest ih =>
    cases b with
    | text s => simp [processContent, fragOf, deltaOf, ih.1, ih.2]
    | toolUse name args =>
      cases htool : tool name args <;>
        simp [processContent, fragOf, deltaOf, htool, ih.1, ih.2]

lemma recoverGo_log_prefix (api : ℕ → ApiResult) (sysC : List SBlock)
    (toolsC : List Tool) (messages : List Msg) :
    ∀ (ks : List ℕ) (cIdx : ℕ) (log : List Request),
      ∃ ext, recoverLog (recoverGo api sysC toolsC messages ks cIdx log) = log ++ ext := by
  intro ks
  induction ks with
  | nil =>
    intro cIdx log
    exact ⟨[], by simp [recoverGo, recoverLog]⟩
  | cons k ks ih =>
    intro cIdx log
    rw [recoverGo]
    cases hst : applyStrategy k sysC toolsC with
    | none => exact ⟨[], by simp [recoverLog]⟩
    | some st =>
      cases hapi : api cIdx with
      | ok content usage => exact ⟨[⟨st.1, st.2, messages⟩], by simp [recoverLog]⟩
      | errTimeout =>
        rcases ih (cIdx + 1) (log ++ [⟨st.1, st.2, messages⟩]) with ⟨ext, hext⟩
        exact ⟨[⟨st.1, st.2, messages⟩] ++ ext, by simpa using hext⟩
      | errOverflow msg =>
        rcases ih (cIdx + 1) (log ++ [⟨st.1, st.2, messages⟩]) with ⟨ext, hext⟩
        exact ⟨[⟨st.1, st.2, messages⟩] ++ ext, by simpa using hext⟩
      | errOther msg => exact ⟨[⟨st.1, st.2, messages⟩], by simp [recoverLog]⟩

lemma loopGo_log_prefix (api : ℕ → ApiResult) (tool : String → String → ToolOutcome)
    (sys : List SBlock) (tools : List Tool) :
    ∀ (fuel iter cIdx : ℕ) (messages : List Msg) (ft : List Fragment) (log : List Request),
      ∃ ext, (loopGo api tool sys tools fuel iter cIdx messages ft log).log = log ++ ext := by
  intro fuel
  induction fuel with
  | zero =>
    intro iter cIdx messages ft log
    exact ⟨[], by simp [loopGo]⟩
  | succ fuel ih =>
    intro iter cIdx messages ft log
    rw [loopGo]
    cases hapi : api cIdx with
    | ok content usage =>
      cases hstep : loopStep tool (iter + 1) messages ft (metricsFrags usage) content with
      | cont messages2 ft2 =>
        rcases ih (iter + 1) (cIdx + 1) messages2 ft2 (log ++ [⟨sys, tools, messages⟩]) with
          ⟨ext, hext⟩
        exact ⟨[⟨sys, tools, messages⟩] ++ ext, by simp only [hstep]; simpa using hext⟩
      | halt frags => exact ⟨[⟨sys, tools, messages⟩], by simp only [hstep]⟩
    | errOther msg => exact ⟨[⟨sys, tools, messages⟩], by simp⟩
    | errTimeout => exact ⟨[⟨sys, tools, messages⟩], by simp⟩
    | errOverflow msg =>
      have hpre := recoverGo_log_prefix api sys tools messages [1, 2, 3] (cIdx + 1)
        (log ++ [⟨sys, tools, messages⟩])
      cases hrec : recoverGo api sys tools messages [1, 2, 3] (cIdx + 1)
          (log ++ [⟨sys, tools, messages⟩]) with
      | fail frags2 log2 =>
        rw [hrec] at hpre
        rcases hpre with ⟨ext, hext⟩
        simp only [recoverLog] at hext
        refine ⟨[⟨sys, tools, messages⟩] ++ ext, ?_⟩
        simp only [hrec]
        simpa using hext
      | done content2 cIdx2 log2 =>
        rw [hrec] at hpre
        rcases hpre with ⟨ext, hext⟩
        simp only [recoverLog] at hext
        cases hstep : loopStep tool (iter + 1) messages ft [] content2 with
        | cont messages2 ft2 =>
          rcases ih (iter + 1) cIdx2 messages2 ft2 log2 with ⟨ext2, hext2⟩
          refine ⟨[⟨sys, tools, messages⟩] ++ ext ++ ext2, ?_⟩
          simp only [hrec, hstep]
          rw [hext2, hext]
          simp
        | halt frags2 =>
          refine ⟨[⟨sys, tools, messages⟩] ++ ext, ?_⟩
          simp only [hrec, hstep]
          simpa using hext

lemma loopStep_eq_cont (tool : String → String → ToolOutcome) (iter' : ℕ)
    (messages : List Msg) (ft metrics : List Fragment) (content : List CBlock)
    (h : (processContent tool content).hasTool = true) :
    loopStep tool iter' messages ft metrics content =
      .cont (messages ++ (processContent tool content).delta)
        (ft ++ (metrics ++ [.iterHeader iter'] ++ (processContent tool content).frags)) := by
  rw [loopStep]
  simp [h]

lemma loopStep_eq_halt (tool : String → String → ToolOutcome) (iter' : ℕ)
    (messages : List Msg) (ft metrics : List Fragment) (content : List CBlock)
    (h : (processContent tool content).hasTool = false) :
    loopStep tool iter' messages ft metrics content =
      .halt (if maxIterations ≤ iter' then
          (ft ++ (metrics ++ [.iterHeader iter'] ++ (processContent tool content).frags)) ++
            [.maxIterWarning]
        else ft ++ (metrics ++ [.iterHeader iter'] ++ (processContent tool content).frags)) := by
  rw [loopStep]
  simp [h]

lemma loopGo_all_tool (api : ℕ → ApiResult) (tool : String → String → ToolOutcome)
    (sys : List SBlock) (tools : List Tool) :
    ∀ (fuel iter cIdx : ℕ) (messages : List Msg) (ft : List Fragment) (log : List Request),
      iter + fuel = maxIterations →
      (∀ j < fuel, ∃ c u, api (cIdx + j) = ApiResult.ok c u ∧ c.any isToolUseB = true) →
      (loopGo api tool sys tools fuel iter cIdx messages ft log).log.length =
          log.length + fuel ∧
        Fragment.maxIterWarning ∈ (loopGo api tool sys tools fuel iter cIdx messages ft log).frags := by
  intro fuel
  induction fuel with
  | zero =>
    intro iter cIdx messages ft log hiter h
    have hge : maxIterations ≤ iter := by omega
    rw [loopGo]
    simp [hge]
  | succ fuel ih =>
    intro iter cIdx messages ft log hiter h
    obtain ⟨c, u, hapi, htool⟩ := h 0 (by omega)
    rw [Nat.add_zero] at hapi
    have hht : (processContent tool c).hasTool = true := by
      rw [processContent_hasTool]; exact htool
    have ihr := ih (iter + 1) (cIdx + 1)
      (messages ++ (processContent tool c).delta)
      (ft ++ (metricsFrags u ++ [.iterHeader (iter + 1)] ++ (processContent tool c).frags))
      (log ++ [⟨sys, tools, messages⟩]) (by omega)
      (fun j hj => by
        obtain ⟨c2, u2, ha, ht2⟩ := h (j + 1) (by omega)
        have harg : cIdx + 1 + j = cIdx + (j + 1) := by omega
        exact ⟨c2, u2, by rw [harg]; exact ha, ht2⟩)
    rw [loopGo]
    simp only [hapi]
    rw [loopStep_eq_cont tool (iter + 1) messages ft (metricsFrags u) c hht]
    constructor
    · rw [ihr.1]
      simp
      omega
    · exact ihr.2

lemma loopGo_last_no_tool (api : ℕ → ApiResult) (tool : String → String → ToolOutcome)
    (sys : List SBlock) (tools : List Tool) :
    ∀ (fuel iter cIdx : ℕ) (messages : List Msg) (ft : List Fragment) (log : List Request),
      iter + fuel = maxIterations → 0 < fuel →
      (∀ j, j + 1 < fuel → ∃ c u, api (cIdx + j) = ApiResult.ok c u ∧ c.any isToolUseB = true) →
      (∃ c u, api (cIdx + (fuel - 1)) = ApiResult.ok c u ∧ c.any isToolUseB = false) →
      (loopGo api tool sys tools fuel iter cIdx messages ft log).log.length =
          log.length + fuel ∧
        Fragment.maxIterWarning ∈ (loopGo api tool sys tools fuel iter cIdx messages ft log).frags := by
  intro fuel
  induction fuel with
  | zero => intro _ _ _ _ _ _ hf; omega
  | succ fuel ih =>
    intro iter cIdx messages ft log hiter _ hmid hlast
    cases fuel with
    | zero =>
      obtain ⟨c, u, hapi, htool⟩ := hlast
      rw [Nat.add_zero] at hapi
      have hht : (processContent tool c).hasTool = false := by
        rw [processContent_hasTool]; exact htool
      rw [loopGo]
      simp only [hapi]
      rw [loopStep_eq_halt tool (iter + 1) messages ft (metricsFrags u) c hht]
      have hge : maxIterations ≤ iter + 1 := by omega
      simp [hge]
    | succ fuel2 =>
      obtain ⟨c, u, hapi, htool⟩ := hmid 0 (by omega)
      rw [Nat.add_zero] at hapi
      have hht : (processContent tool c).hasTool = true := by
        rw [processContent_hasTool]; exact htool
      have ihr := ih (iter + 1) (cIdx + 1)
        (messages ++ (processContent tool c).delta)
        (ft ++ (metricsFrags u ++ [.iterHeader (iter + 1)] ++ (processContent tool c).frags))
        (log ++ [⟨sys, tools, messages⟩]) (by omega) (by omega)
        (fun j hj => by
          obtain ⟨c2, u2, ha, ht2⟩ := hmid (j + 1) (by omega)
          have harg : cIdx + 1 + j = cIdx + (j + 1) := by omega
          exact ⟨c2, u2, by rw [harg]; exact ha, ht2⟩)
        (by
          obtain ⟨c2, u2, ha, ht2⟩ := hlast
          have harg : cIdx + 1 + (fuel2 + 1 - 1) = cIdx + (fuel2 + 1 + 1 - 1) := by omega
          exact ⟨c2, u2, by rw [harg]; exact ha, ht2⟩)
      rw [loopGo]
      simp only [hapi]
      rw [loopStep_eq_cont tool (iter + 1) messages ft (metricsFrags u) c hht]
      constructor
      · rw [ihr.1]
        simp
        omega
      · exact ihr.2

lemma loopGo_succ_log (api : ℕ → ApiResult) (tool : String → String → ToolOutcome)
    (sys : List SBlock) (tools : List Tool) (fuel iter cIdx : ℕ) (messages : List Msg)
    (ft : List Fragment) (log : List Request) :
    ∃ ext, (loopGo api tool sys tools (fuel + 1) iter cIdx messages ft log).log =
      (log ++ [⟨sys, tools, messages⟩]) ++ ext := by
  rw [loopGo]
  cases hapi : api cIdx with
  | ok content usage =>
    cases hstep : loopStep tool (iter + 1) messages ft (metricsFrags usage) content with
    | cont messages2 ft2 =>
      rcases loopGo_log_prefix api tool sys tools fuel (iter + 1) (cIdx + 1) messages2 ft2
        (log ++ [⟨sys, tools, messages⟩]) with ⟨ext, hext⟩
      exact ⟨ext, by simp only [hstep]; exact hext⟩
    | halt frags => exact ⟨[], by simp only [hstep]; simp⟩
  | errOther msg => exact ⟨[], by simp⟩
  | errTimeout => exact ⟨[], by simp⟩
  | errOverflow msg =>
    have hpre := recoverGo_log_prefix api sys tools messages [1, 2, 3] (cIdx + 1)
      (log ++ [⟨sys, tools, messages⟩])
    cases hrec : recoverGo api sys tools messages [1, 2, 3] (cIdx + 1)
        (log ++ [⟨sys, tools, messages⟩]) with
    | fail frags2 log2 =>
      rw [hrec] at hpre
      rcases hpre with ⟨ext, hext⟩
      simp only [recoverLog] at hext
      exact ⟨ext, by simp only [hrec]; exact hext⟩
    | done content2 cIdx2 log2 =>
      rw [hrec] at hpre
      rcases hpre with ⟨ext, hext⟩
      simp only [recoverLog] at hext
      cases hstep : loopStep tool (iter + 1) messages ft [] content2 with
      | cont messages2 ft2 =>
        rcases loopGo_log_prefix api tool sys tools fuel (iter + 1) cIdx2 messages2 ft2
          log2 with ⟨ext2, hext2⟩
        refine ⟨ext ++ ext2, ?_⟩
        simp only [hrec, hstep]
        rw [hext2, hext]
        simp
      | halt frags2 =>
        exact ⟨ext, by simp only [hrec, hstep]; exact hext⟩

lemma processContentT_erasure (tool : String → String → ToolOutcome) (toolDur : ℕ → ℕ) :
    ∀ (c : List CBlock) (tIdx elapsed : ℕ),
      (processContentT tool toolDur c tIdx elapsed).1 = processContent tool c := by
  intro c
  induction c with
  | nil => intro tIdx elapsed; rfl
  | cons b rest ih =>
    intro tIdx elapsed
    cases b with
    | text s => simp [processContentT, processContent, ih]
    | toolUse name args =>
      cases htool : tool name args <;>
        simp [processContentT, processContent, htool, ih]

lemma loopStepT_erasure (tool : String → String → ToolOutcome) (toolDur : ℕ → ℕ)
    (iter' : ℕ) (messages : List Msg) (ft metrics : List Fragment)
    (content : List CBlock) (tIdx elapsed : ℕ) :
    (loopStepT tool toolDur iter' messages ft metrics content tIdx elapsed).1 =
      loopStep tool iter' messages ft metrics content := by
  rw [loopStepT, loopStep]
  rw [processContentT_erasure tool toolDur content tIdx elapsed]

lemma recoverGoT_erasure (api : ℕ → ApiResult) (apiDur : ℕ → ℕ) (sysC : List SBlock)
    (toolsC : List Tool) (messages : List Msg)
    (hdur : ∀ n, apiDur n ≤ apiTimeout) :
    ∀ (ks : List ℕ) (cIdx : ℕ) (log : List Request) (elapsed : ℕ),
      (recoverGoT api apiDur sysC toolsC messages ks cIdx log elapsed).1 =
        recoverGo api sysC toolsC messages ks cIdx log := by
  intro ks
  induction ks with
  | nil => intro cIdx log elapsed; rfl
  | cons k ks ih =>
    intro cIdx log elapsed
    rw [recoverGoT, recoverGo]
    cases hst : applyStrategy k sysC toolsC with
    | none => rfl
    | some st =>
      dsimp only
      rw [if_neg (Nat.not_lt.mpr (hdur cIdx))]
      cases hapi : api cIdx with
      | ok content usage => rfl
      | errTimeout => exact ih (cIdx + 1) _ _
      | errOverflow msg => exact ih (cIdx + 1) _ _
      | errOther msg => rfl

lemma loopGoT_erasure (api : ℕ → ApiResult) (apiDur : ℕ → ℕ)
    (tool : String → String → ToolOutcome) (toolDur : ℕ → ℕ)
    (sys : List SBlock) (tools : List Tool)
    (hdur : ∀ n, apiDur n ≤ apiTimeout) :
    ∀ (fuel iter cIdx tIdx : ℕ) (messages : List Msg) (ft : List Fragment)
      (log : List Request) (elapsed : ℕ),
      (loopGoT api apiDur tool toolDur sys tools fuel iter cIdx tIdx messages ft log
          elapsed).1 =
        loopGo api tool sys tools fuel iter cIdx messages ft log := by
  intro fuel
  induction fuel with
  | zero => intro iter cIdx tIdx messages ft log elapsed; rfl
  | succ fuel ih =>
    intro iter cIdx tIdx messages ft log elapsed
    rw [loopGoT, loopGo]
    rw [if_neg (Nat.not_lt.mpr (hdur cIdx))]
    cases hapi : api cIdx with
    | ok content usage =>
      rcases hLT : loopStepT tool toolDur (iter + 1) messages ft (metricsFrags usage)
          content tIdx (elapsed + min (apiDur cIdx) apiTimeout) with ⟨so, tIdx2, e2⟩
      have hT : so = loopStep tool (iter + 1) messages ft (metricsFrags usage) content := by
        have h := loopStepT_erasure tool toolDur (iter + 1) messages ft (metricsFrags usage)
          content tIdx (elapsed + min (apiDur cIdx) apiTimeout)
        rw [hLT] at h
        exact h
      dsimp only
      rw [hLT, ← hT]
      cases so with
      | cont messages2 ft2 => exact ih (iter + 1) (cIdx + 1) tIdx2 messages2 ft2 _ e2
      | halt frags => rfl
    | errOther msg => rfl
    | errTimeout => rfl
    | errOverflow msg =>
      rcases hRT : recoverGoT api apiDur sys tools messages [1, 2, 3] (cIdx + 1)
          (log ++ [⟨sys, tools, messages⟩]) (elapsed + min (apiDur cIdx) apiTimeout) with
        ⟨ro, e2⟩
      have hR : ro = recoverGo api sys tools messages [1, 2, 3] (cIdx + 1)
          (log ++ [⟨sys, tools, messages⟩]) := by
        have h := recoverGoT_erasure api apiDur sys tools messages hdur [1, 2, 3] (cIdx + 1)
          (log ++ [⟨sys, tools, messages⟩]) (elapsed + min (apiDur cIdx) apiTimeout)
        rw [hRT] at h
        exact h
      dsimp only
      rw [hRT, ← hR]
      cases ro with
      | fail frags2 log2 => rfl
      | done content2 cIdx2 log2 =>
        dsimp only
        rcases hLT : loopStepT tool toolDur (iter + 1) messages ft [] content2 tIdx e2 with
          ⟨so, tIdx2, e3⟩
        have hT : so = loopStep tool (iter + 1) messages ft [] content2 := by
          have h := loopStepT_erasure tool toolDur (iter + 1) messages ft [] content2 tIdx e2
          rw [hLT] at h
          exact h
        rw [← hT]
        cases so with
        | cont messages2 ft2 => exact ih (iter + 1) cIdx2 tIdx2 messages2 ft2 log2 e3
        | halt frags2 => rfl

/-! ## Claims -/

/-- C7 counterexample: the claim asserts an overall wall-clock timeout of
about 300 seconds on `process_query`.  In this timed run — every model call
takes 10 s (within the 30 s per-call bound) and every tool call 200 s — the
deadline is crossed during the second tool call, yet the loop issues a
third model call, completes normally after 430 s of wall-clock time, and
returns the full transcript; no iteration is aborted and no timeout marker
of any kind appears (the transcript consists solely of the per-iteration
headers, tool fragments and the final answer). -/
theorem no_overall_timeout :
    (processQueryLoopT [] [] []
        (fun n => if n = 2 then .ok [.text "done"] none else .ok [.toolUse "t" "{}"] none)
        (fun _ => 10) (fun _ _ => .ok "r") (fun _ => 200)).2 = 430 ∧
    (processQueryLoopT [] [] []
        (fun n => if n = 2 then .ok [.text "done"] none else .ok [.toolUse "t" "{}"] none)
        (fun _ => 10) (fun _ _ => .ok "r") (fun _ => 200)).1.log.length = 3 ∧
    (processQueryLoopT [] [] []
        (fun n => if n = 2 then .ok [.text "done"] none else .ok [.toolUse "t" "{}"] none)
        (fun _ => 10) (fun _ _ => .ok "r") (fun _ => 200)).1.frags =
      [.iterHeader 1, .toolCallDesc "t" "{}", .toolResult "r",
       .iterHeader 2, .toolCallDesc "t" "{}", .toolResult "r",
       .iterHeader 3, .thinking "done"] := by
  exact ⟨rfl, rfl, rfl⟩

/-- C7 (amended): `process_query` is not wrapped in any overall wall-clock
timeout.  The only clock influence on its behaviour is the 30 s
`asyncio.wait_for` around each individual model call: as long as every
model call finishes within that per-call bound, the returned transcript and
the request log are identical whatever the calls' durations and however
much total wall-clock time elapses (tool calls are awaited with no timeout
at this layer, line 345).  In particular a run exceeding 300 s is neither
aborted nor given a timeout marker. -/
theorem no_overall_timeout_time_independence (system : List SBlock) (tools : List Tool)
    (messages : List Msg) (api : ℕ → ApiResult) (apiDur : ℕ → ℕ)
    (tool : String → String → ToolOutcome) (toolDur : ℕ → ℕ)
    (hdur : ∀ n, apiDur n ≤ apiTimeout) :
    (processQueryLoopT system tools messages api apiDur tool toolDur).1 =
      processQueryLoop system tools messages api tool := by
  exact loopGoT_erasure api apiDur tool toolDur system tools hdur maxIterations 0 0 0
    messages [] [] 0

/-- C7 amended witness (the counterexample run satisfies the 30 s per-call
bound, so its transcript equals the untimed run's). -/
theorem no_overall_timeout_time_independence_witness :
    (processQueryLoopT [] [] []
        (fun n => if n = 2 then .ok [.text "done"] none else .ok [.toolUse "t" "{}"] none)
        (fun _ => 10) (fun _ _ => .ok "r") (fun _ => 200)).1 =
      processQueryLoop [] [] []
        (fun n => if n = 2 then .ok [.text "done"] none else .ok [.toolUse "t" "{}"] none)
        (fun _ _ => .ok "r") :=
  no_overall_timeout_time_independence [] [] []
    (fun n => if n = 2 then .ok [.text "done"] none else .ok [.toolUse "t" "{}"] none)
    (fun _ => 10) (fun _ _ => .ok "r") (fun _ => 200) (fun _ => by norm_num [apiTimeout])

/-- C4 counterexample: the claim says the first fallback strategy leaves
"only the two most recent system blocks marked".  Run the loop on three
marked system blocks and one marked tool (the state `assign_cache_markers`
itself produces), with the first call failing on the cache ceiling and the
first retry succeeding: the retried request still carries the tool marker —
three marked blocks, not only the two most recent system ones.  Strategy 1
(lines 253-258) strips markers only from older *system* blocks and passes
the tools through unchanged. -/
theorem strategy1_keeps_tool_marker :
    (processQueryLoop [⟨"a", true⟩, ⟨"b", true⟩, ⟨"c", true⟩] [⟨"t", true⟩] []
        (fun n => if n = 0 then .errOverflow "maximum of 4 blocks with cache_control"
          else .ok [] none)
        (fun _ _ => .ok "r")).log.map
      (fun rq => (rq.system.countP (·.cached), rq.tools.countP (·.cached))) =
      [(3, 1), (2, 1)] := by
  rfl

/-- C4 (amended): when a model call fails with the cache-ceiling error,
recovery tries up to three fallback strategies in a fixed order, each
applied to a copy of the *original* marked block set: first strip markers
from all but the two most recent system blocks (tool markers untouched);
second strip markers from all but the last system block and all tools but
the first (retaining, not adding, whatever markers those carry); third
strip every marker.  A recurrence of the overflow error advances to the
next strategy rather than aborting, and every retried model call is issued
with the strategy-modified block set, not the original: with the overflow
recurring twice, the four requests issued are the original followed by the
three strategy-modified ones, in order. -/
theorem cache_overflow_fixed_strategies (sys : List SBlock) (t0 : Tool) (ts : List Tool)
    (messages : List Msg) (api : ℕ → ApiResult) (tool : String → String → ToolOutcome)
    (m0 m1 m2 : String) (c : List CBlock) (u : Option Usage)
    (h0 : api 0 = .errOverflow m0) (h1 : api 1 = .errOverflow m1)
    (h2 : api 2 = .errOverflow m2) (h3 : api 3 = .ok c u) :
    (processQueryLoop sys (t0 :: ts) messages api tool).log.take 4 =
      [⟨sys, t0 :: ts, messages⟩,
       ⟨(strategyKeepRecentSystem sys (t0 :: ts)).1,
         (strategyKeepRecentSystem sys (t0 :: ts)).2, messages⟩,
       ⟨sys.mapIdx (fun i b => if i = sys.length - 1 then b else removeCacheControl b),
         t0 :: ts.map removeCacheControlTool, messages⟩,
       ⟨(strategyNoCache sys (t0 :: ts)).1, (strategyNoCache sys (t0 :: ts)).2,
         messages⟩] := by
  have hrec : ∀ log0 : List Request,
      recoverGo api sys (t0 :: ts) messages [1, 2, 3] 1 log0 =
        .done c 4
          (((log0 ++ [⟨(strategyKeepRecentSystem sys (t0 :: ts)).1,
              (strategyKeepRecentSystem sys (t0 :: ts)).2, messages⟩]) ++
            [⟨sys.mapIdx (fun i b => if i = sys.length - 1 then b else removeCacheControl b),
              t0 :: ts.map removeCacheControlTool, messages⟩]) ++
            [⟨(strategyNoCache sys (t0 :: ts)).1, (strategyNoCache sys (t0 :: ts)).2,
              messages⟩]) := by
    intro log0
    rw [recoverGo]
    simp only [applyStrategy, h1]
    rw [recoverGo]
    simp only [applyStrategy, strategyMinimalCache, h2]
    rw [recoverGo]
    simp only [applyStrategy, h3]
  have e0 : processQueryLoop sys (t0 :: ts) messages api tool =
      loopGo api tool sys (t0 :: ts) (9 + 1) 0 0 messages [] [] := rfl
  rw [e0, loopGo]
  simp only [h0, Nat.zero_add]
  simp only [hrec]
  cases hstep : loopStep tool (0 + 1) messages [] [] c with
  | cont messages2 ft2 =>
    simp only [hstep]
    rcases loopGo_log_prefix api tool sys (t0 :: ts) 9 (0 + 1) 4 messages2 ft2
      (((([] ++ [⟨sys, t0 :: ts, messages⟩]) ++
        [⟨(strategyKeepRecentSystem sys (t0 :: ts)).1,
          (strategyKeepRecentSystem sys (t0 :: ts)).2, messages⟩]) ++
        [⟨sys.mapIdx (fun i b => if i = sys.length - 1 then b else removeCacheControl b),
          t0 :: ts.map removeCacheControlTool, messages⟩]) ++
        [⟨(strategyNoCache sys (t0 :: ts)).1, (strategyNoCache sys (t0 :: ts)).2,
          messages⟩]) with ⟨ext, hext⟩
    rw [hext]
    simp [List.take_append]
  | halt frags2 =>
    simp only [hstep]
    simp

/-- C4 amended witness. -/
theorem cache_overflow_fixed_strategies_witness :
    (processQueryLoop [⟨"a", true⟩, ⟨"b", true⟩, ⟨"c", true⟩] [⟨"t", true⟩] []
        (fun n => if n ≤ 2 then .errOverflow "maximum of 4 blocks with cache_control"
          else .ok [] none)
        (fun _ _ => .ok "r")).log.take 4 =
      [⟨[⟨"a", true⟩, ⟨"b", true⟩, ⟨"c", true⟩], [⟨"t", true⟩], []⟩,
       ⟨(strategyKeepRecentSystem [⟨"a", true⟩, ⟨"b", true⟩, ⟨"c", true⟩] [⟨"t", true⟩]).1,
         (strategyKeepRecentSystem [⟨"a", true⟩, ⟨"b", true⟩, ⟨"c", true⟩] [⟨"t", true⟩]).2,
         []⟩,
       ⟨([⟨"a", true⟩, ⟨"b", true⟩, ⟨"c", true⟩] : List SBlock).mapIdx
           (fun i b => if i = ([⟨"a", true⟩, ⟨"b", true⟩, ⟨"c", true⟩] : List SBlock).length - 1
             then b else removeCacheControl b),
         ⟨"t", true⟩ :: ([] : List Tool).map removeCacheControlTool, []⟩,
       ⟨(strategyNoCache [⟨"a", true⟩, ⟨"b", true⟩, ⟨"c", true⟩] [⟨"t", true⟩]).1,
         (strategyNoCache [⟨"a", true⟩, ⟨"b", true⟩, ⟨"c", true⟩] [⟨"t", true⟩]).2, []⟩] :=
  cache_overflow_fixed_strategies [⟨"a", true⟩, ⟨"b", true⟩, ⟨"c", true⟩] ⟨"t", true⟩ []
    [] (fun n => if n ≤ 2 then .errOverflow "maximum of 4 blocks with cache_control"
      else .ok [] none)
    (fun _ _ => .ok "r") _ _ _ [] none rfl rfl rfl rfl

/-- C9: for a model response containing more than one tool-use block,
`process_query` dispatches every tool call in content-block order within the
same iteration: the iteration's fragments and synthetic conversation turns
are the in-order concatenation of each block's contribution (one assistant
turn plus one user tool-result turn per successfully resolved call), and the
next model call is issued with all of them already appended to the
conversation — not just the first tool call of the response. -/
theorem multi_tool_same_iteration (context : List CtxMsg) (query env : String)
    (availableTools : List Tool) (api : ℕ → ApiResult)
    (tool : String → String → ToolOutcome) (c : List CBlock) (u : Option Usage)
    (h0 : api 0 = ApiResult.ok c u) (hmulti : 1 < c.countP isToolUseB) :
    (processContent tool c).frags = c.flatMap (fragOf tool) ∧
    (processContent tool c).delta = c.flatMap (deltaOf tool) ∧
    (processQuery context query env availableTools api tool).log[0]?.map (·.messages) =
      some (prepare context query env availableTools).messages ∧
    (processQuery context query env availableTools api tool).log[1]?.map (·.messages) =
      some ((prepare context query env availableTools).messages ++
        c.flatMap (deltaOf tool)) := by
  have hspec := processContent_spec tool c
  have hht : (processContent tool c).hasTool = true := by
    rw [processContent_hasTool]
    rcases List.countP_pos_iff.mp (by omega : 0 < c.countP isToolUseB) with ⟨b, hb, hpb⟩
    exact List.any_eq_true.mpr ⟨b, hb, hpb⟩
  refine ⟨hspec.1, hspec.2, ?_, ?_⟩ <;>
  · have hpq : processQuery context query env availableTools api tool =
        loopGo api tool (prepare context query env availableTools).system
          (prepare context query env availableTools).tools (9 + 1) 0 0
          (prepare context query env availableTools).messages [] [] := rfl
    rw [hpq, loopGo]
    simp only [h0]
    rw [loopStep_eq_cont tool (0 + 1) (prepare context query env availableTools).messages []
      (metricsFrags u) c hht]
    rcases loopGo_succ_log api tool (prepare context query env availableTools).system
      (prepare context query env availableTools).tools 8 (0 + 1) (0 + 1)
      ((prepare context query env availableTools).messages ++ (processContent tool c).delta)
      ([] ++ (metricsFrags u ++ [.iterHeader (0 + 1)] ++ (processContent tool c).frags))
      ([] ++ [⟨(prepare context query env availableTools).system,
        (prepare context query env availableTools).tools,
        (prepare context query env availableTools).messages⟩]) with ⟨ext, hext⟩
    rw [hext, hspec.2]
    simp

/-- C9 witness: a response with two tool-use blocks. -/
theorem multi_tool_same_iteration_witness :
    ((processContent (fun _ _ => .ok "r") [.toolUse "a" "{}", .toolUse "b" "{}"]).frags =
      ([.toolUse "a" "{}", .toolUse "b" "{}"] : List CBlock).flatMap
        (fragOf (fun _ _ => .ok "r")) ∧
    (processContent (fun _ _ => .ok "r") [.toolUse "a" "{}", .toolUse "b" "{}"]).delta =
      ([.toolUse "a" "{}", .toolUse "b" "{}"] : List CBlock).flatMap
        (deltaOf (fun _ _ => .ok "r")) ∧
    (processQuery [] "q" "e" []
        (fun _ => .ok [.toolUse "a" "{}", .toolUse "b" "{}"] none)
        (fun _ _ => .ok "r")).log[0]?.map (·.messages) =
      some (prepare [] "q" "e" []).messages ∧
    (processQuery [] "q" "e" []
        (fun _ => .ok [.toolUse "a" "{}", .toolUse "b" "{}"] none)
        (fun _ _ => .ok "r")).log[1]?.map (·.messages) =
      some ((prepare [] "q" "e" []).messages ++
        ([.toolUse "a" "{}", .toolUse "b" "{}"] : List CBlock).flatMap
          (deltaOf (fun _ _ => .ok "r")))) :=
  multi_tool_same_iteration [] "q" "e" []
    (fun _ => .ok [.toolUse "a" "{}", .toolUse "b" "{}"] none)
    (fun _ _ => .ok "r") [.toolUse "a" "{}", .toolUse "b" "{}"] none rfl (by decide)

/-- C10: when the orchestration loop runs exactly `max_iterations`
iterations — the first nine model responses contain a tool call and the
tenth completes normally with no tool call — the max-iterations warning
fragment is still appended to the returned transcript (lines 379-380 test
`iteration >= self.max_iterations`, which also holds when the loop ended by
a normal break on the final iteration). -/
theorem warning_on_final_iteration (context : List CtxMsg) (query env : String)
    (availableTools : List Tool) (api : ℕ → ApiResult)
    (tool : String → String → ToolOutcome)
    (hmid : ∀ j, j + 1 < maxIterations →
      ∃ c u, api j = ApiResult.ok c u ∧ c.any isToolUseB = true)
    (hlast : ∃ c u, api (maxIterations - 1) = ApiResult.ok c u ∧ c.any isToolUseB = false) :
    (processQuery context query env availableTools api tool).log.length = maxIterations ∧
    Fragment.maxIterWarning ∈ (processQuery context query env availableTools api tool).frags := by
  have hpq : processQuery context query env availableTools api tool =
      loopGo api tool (prepare context query env availableTools).system
        (prepare context query env availableTools).tools maxIterations 0 0
        (prepare context query env availableTools).messages [] [] := rfl
  have hrun := loopGo_last_no_tool api tool (prepare context query env availableTools).system
    (prepare context query env availableTools).tools maxIterations 0 0
    (prepare context query env availableTools).messages [] [] (by simp)
    (by simp [maxIterations])
    (fun j hj => by rw [Nat.zero_add]; exact hmid j hj)
    (by rw [Nat.zero_add]; exact hlast)
  rw [hpq]
  exact ⟨by rw [hrun.1]; simp, hrun.2⟩

/-- C10 witness: nine tool-call responses, then a final plain-text answer. -/
theorem warning_on_final_iteration_witness :
    (processQuery [] "q" "e" []
        (fun j => if j < 9 then .ok [.toolUse "t" "{}"] none else .ok [.text "done"] none)
        (fun _ _ => .ok "r")).log.length = maxIterations ∧
    Fragment.maxIterWarning ∈ (processQuery [] "q" "e" []
        (fun j => if j < 9 then .ok [.toolUse "t" "{}"] none else .ok [.text "done"] none)
        (fun _ _ => .ok "r")).frags := by
  refine warning_on_final_iteration [] "q" "e" []
    (fun j => if j < 9 then .ok [.toolUse "t" "{}"] none else .ok [.text "done"] none)
    (fun _ _ => .ok "r") ?_ ?_
  · intro j hj
    refine ⟨[.toolUse "t" "{}"], none, ?_, rfl⟩
    have : j < 9 := by simp [maxIterations] at hj; omega
    simp [this]
  · exact ⟨[.text "done"], none, by norm_num [maxIterations], rfl⟩

/-- C1: for every query in which each model response contains a tool-call
block (and every behaviour of the tool oracle), `process_query` performs
exactly `max_iterations = 10` model calls — in particular at most
`max_iterations + 1` — terminates (the embedding is a total function), and
the returned transcript contains the max-iterations warning fragment. -/
theorem bounded_iteration (context : List CtxMsg) (query env : String)
    (availableTools : List Tool) (api : ℕ → ApiResult)
    (tool : String → String → ToolOutcome)
    (h : ∀ j < maxIterations, ∃ c u, api j = ApiResult.ok c u ∧ c.any isToolUseB = true) :
    (processQuery context query env availableTools api tool).log.length = maxIterations ∧
    (processQuery context query env availableTools api tool).log.length ≤ maxIterations + 1 ∧
    Fragment.maxIterWarning ∈ (processQuery context query env availableTools api tool).frags := by
  have hpq : processQuery context query env availableTools api tool =
      loopGo api tool (prepare context query env availableTools).system
        (prepare context query env availableTools).tools maxIterations 0 0
        (prepare context query env availableTools).messages [] [] := rfl
  have hrun := loopGo_all_tool api tool (prepare context query env availableTools).system
    (prepare context query env availableTools).tools maxIterations 0 0
    (prepare context query env availableTools).messages [] [] (by simp)
    (fun j hj => by rw [Nat.zero_add]; exact h j hj)
  rw [hpq]
  exact ⟨by rw [hrun.1]; simp, by rw [hrun.1]; simp, hrun.2⟩

/-- C1 witness: the model returns a tool call on every iteration. -/
theorem bounded_iteration_witness :
    (processQuery [] "q" "e" [] (fun _ => .ok [.toolUse "t" "{}"] none)
        (fun _ _ => .ok "r")).log.length = maxIterations ∧
    (processQuery [] "q" "e" [] (fun _ => .ok [.toolUse "t" "{}"] none)
        (fun _ _ => .ok "r")).log.length ≤ maxIterations + 1 ∧
    Fragment.maxIterWarning ∈ (processQuery [] "q" "e" []
        (fun _ => .ok [.toolUse "t" "{}"] none) (fun _ _ => .ok "r")).frags :=
  bounded_iteration [] "q" "e" [] (fun _ => .ok [.toolUse "t" "{}"] none)
    (fun _ _ => .ok "r")
    (fun _ _ => ⟨[.toolUse "t" "{}"], none, rfl, rfl⟩)

/-- C2: for every registry state (list of registered sessions in
registration order, each healthy, with a valid tool listing and a tool call
that returns a non-empty response on its first attempt) `call_tool` returns
the result produced by the first session, in registration order, whose tool
listing contains the requested name — a dict carrying the tool name, the
arguments and the response content of that session — and returns `None`
without raising when no session exposes the tool. -/
theorem dispatch_first_match (servers : List SrvT) (name args : String)
    (reconnectOk : String → Bool)
    (hh : ∀ s ∈ servers, s.healthy = true)
    (ht : ∀ s ∈ servers, s.toolsResp ≠ none)
    (hc : ∀ s ∈ servers, callBlocks s ≠ [] ∧ s.call 0 = .okC (callBlocks s)) :
    callTool servers name args true reconnectOk =
      (servers.find? fun s => (s.toolsResp.getD []).contains name).map
        fun s => (⟨name, args, callBlocks s⟩ : CallResult) := by
  rw [callTool, if_neg (by simp)]
  have hscan := scanGo_spec name args servers hh ht hc
  cases hfind : servers.find? fun s => (s.toolsResp.getD []).contains name with
  | some s =>
    rw [hfind] at hscan
    simp [callToolGo, hscan]
  | none =>
    rw [hfind] at hscan
    cases servers with
    | nil => simp [callToolGo, scanGo]
    | cons s rest => simp [callToolGo, hscan]

/-- C2 witness: two registered sessions; only the second exposes "echo". -/
theorem dispatch_first_match_witness :
    callTool
      [⟨"one", true, some ["alpha"], fun _ => .okC [⟨"text", "hi"⟩]⟩,
       ⟨"two", true, some ["echo"], fun _ => .okC [⟨"text", "hi"⟩]⟩]
      "echo" "{}" true (fun _ => false) =
      some ⟨"echo", "{}", [⟨"text", "hi"⟩]⟩ := by
  have h := dispatch_first_match
    [⟨"one", true, some ["alpha"], fun _ => .okC [⟨"text", "hi"⟩]⟩,
     ⟨"two", true, some ["echo"], fun _ => .okC [⟨"text", "hi"⟩]⟩]
    "echo" "{}" (fun _ => false)
    (by intro s hs; simp at hs; rcases hs with rfl | rfl <;> rfl)
    (by intro s hs; simp at hs; rcases hs with rfl | rfl <;> simp)
    (by intro s hs; simp at hs; rcases hs with rfl | rfl <;> exact ⟨by simp [callBlocks], rfl⟩)
  rw [h]
  rfl

/-- C8: `check_servers_health` iterates the connected servers in sorted-name
order, probes only those whose recorded check is missing or strictly older
than the interval, and raises a `ConnectionError` naming exactly the first
unhealthy server among them; the servers after it in that order are never
probed.  The probed list is exactly the healthy prefix of the due servers
followed by the first unhealthy one, and the outcome is determined by the
first due server failing its check. -/
theorem check_all_health_first_failure (connected : List String)
    (lastChecks : List (String × ℕ)) (now interval : ℕ) (health : String → Bool) :
    checkServersHealth connected lastChecks now interval health =
      (((connected.mergeSort (· ≤ ·)).filter
          (dueForCheck lastChecks now interval)).takeWhile health ++
        (((connected.mergeSort (· ≤ ·)).filter
          (dueForCheck lastChecks now interval)).dropWhile health).take 1,
       match ((connected.mergeSort (· ≤ ·)).filter
          (dueForCheck lastChecks now interval)).find? (fun n => ¬ health n) with
       | some n => Except.error ("Server health check failed for " ++ n)
       | none => Except.ok ()) := by
  unfold checkServersHealth
  exact checkServersHealthGo_spec health _ _

/-- C5: the claim expects `connect` to retry transient connection failures
with backoff (as the repository's own test
`test_connect_to_server_retry_logic` asserts: two simulated connection
failures, success on the third attempt, three underlying attempts).  The
code contradicts this: any failure inside the connection block (stdio
setup, session creation/initialisation, tool listing) hits the blanket
`except ...: return False` at line 396 and returns false after a single
attempt — only errors raised *before* the connection block is entered
(config/env access) reach the retry handler at line 400.  The first
conjunct evaluates the model on the test scenario; the second shows the
backoff machinery (delays 1 s then 2 s, three attempts) does engage for
pre-connection setup errors. -/
theorem connect_no_retry_on_connection_failure :
    connectToServer true
        (fun n => if n < 2 then .connFail "Simulated connection failure" else .ok)
        (fun _ => 0) 120 = ⟨false, 1, []⟩ ∧
    connectToServer true
        (fun n => if n < 2 then .setupErr "config error" else .ok)
        (fun _ => 0) 120 = ⟨true, 3, [1, 2]⟩ := by
  constructor <;> rfl

/-- C6 counterexample: a registered server whose quick `initialize()` probe
fails and whose fallback `list_tools()` probe times out.
`_check_server_health` returns false, yet the server is still in
`connected_servers` and its subprocess is still tracked when the call
returns — contradicting the claim that an unhealthy verdict always leaves
the registry clean within the call. -/
theorem health_false_can_leave_registered :
    (checkServerHealth ⟨["s"], ["s"], [("s", false)], []⟩ "s"
        (fun _ => ⟨false, .timeoutP, false⟩) 0).verdict = false ∧
    (checkServerHealth ⟨["s"], ["s"], [("s", false)], []⟩ "s"
        (fun _ => ⟨false, .timeoutP, false⟩) 0).reg.connected = ["s"] ∧
    (checkServerHealth ⟨["s"], ["s"], [("s", false)], []⟩ "s"
        (fun _ => ⟨false, .timeoutP, false⟩) 0).reg.processes = [("s", false)] := by
  exact ⟨rfl, rfl, rfl⟩

/-- C6 (amended): the synchronous cleanup-on-unhealthy guarantee holds only
on the path where the tracked subprocess is found to have exited: there
`_check_server_health` calls `cleanup_server` before returning false, and
the server is gone from the connected set and from the process table by the
time the call returns.  Probe failures return false leaving the session
registered, and unexpected errors only schedule a cleanup task. -/
theorem health_false_process_exited_cleanup (reg : Registry) (name : String)
    (probe : String → ProbeBehavior) (now : ℕ)
    (h1 : (probe name).unexpectedErr = false)
    (h2 : name ∈ reg.servers)
    (h3 : procExited reg name = true) :
    (checkServerHealth reg name probe now).verdict = false ∧
    name ∉ (checkServerHealth reg name probe now).reg.connected ∧
    ∀ q ∈ (checkServerHealth reg name probe now).reg.processes, q.1 ≠ name := by
  have hres : checkServerHealth reg name probe now = ⟨false, cleanupServer reg name, false⟩ := by
    rw [checkServerHealth]
    simp [h1, h2, h3]
  rw [hres]
  refine ⟨rfl, ?_, ?_⟩
  · intro hmem
    rcases List.mem_filter.mp hmem with ⟨-, hdec⟩
    simp at hdec
  · intro q hq
    rcases List.mem_filter.mp hq with ⟨-, hdec⟩
    simpa using hdec

/-- C3: for every input context and tool list carrying no pre-existing cache
markers, the assignment of cache markers in `process_query` (lines 52-172)
marks at most `MAX_CACHE_BLOCKS = 4` blocks in total across the system
blocks and the tool definitions, and marks at least one tool block whenever
the tool list is non-empty. -/
theorem cache_ceiling_respected (context : List CtxMsg) (query env : String)
    (tools : List Tool)
    (hctx : ∀ m ∈ context, ∀ b ∈ ctxBlocks m, b.cached = false)
    (htools : ∀ t ∈ tools, t.cached = false) :
    (prepare context query env tools).system.countP (·.cached) +
      (prepare context query env tools).tools.countP (·.cached) ≤ maxCacheBlocks ∧
    (tools ≠ [] → 0 < (prepare context query env tools).tools.countP (·.cached)) := by
  have hsys : (prepare context query env tools).system =
      context.flatMap passBlocks ++
        (allocSystem (sortByPrio (context.filterMap fun m =>
          (prioBlock m).map fun b => (b, cachePriority b))) (maxCacheBlocks - 1) 0).1 := rfl
  have htls : (prepare context query env tools).tools =
      (markTools (sortByPrio (tools.map fun t => (t, toolCachePriority)))
        (allocSystem (sortByPrio (context.filterMap fun m =>
          (prioBlock m).map fun b => (b, cachePriority b))) (maxCacheBlocks - 1) 0).2.2).1 := rfl
  set sp := sortByPrio (context.filterMap fun m =>
    (prioBlock m).map fun b => (b, cachePriority b)) with hsp
  set a := allocSystem sp (maxCacheBlocks - 1) 0 with ha
  have hcntP : a.1.countP (·.cached) + 0 = a.2.2 :=
    allocSystem_countP sp (maxCacheBlocks - 1) 0 (sysPairs_uncached context hctx)
  have hle : a.2.2 ≤ 0 + (maxCacheBlocks - 1) := allocSystem_cnt_le sp (maxCacheBlocks - 1) 0
  have hcnt4 : a.2.2 < maxCacheBlocks := by
    simp only [maxCacheBlocks] at hle ⊢
    omega
  have htp : ∀ x ∈ sortByPrio (tools.map fun t => (t, toolCachePriority)),
      x.1.cached = false := by
    intro x hx
    rw [sortByPrio, List.mem_mergeSort] at hx
    rcases List.mem_map.mp hx with ⟨t, ht, rfl⟩
    exact htools t ht
  have hmt := markTools_spec (sortByPrio (tools.map fun t => (t, toolCachePriority)))
    a.2.2 htp hcnt4
  constructor
  · rw [hsys, htls, List.countP_append, pass_uncached context hctx]
    omega
  · intro hne
    rw [htls]
    refine hmt.2.2 ?_
    intro hnil
    apply hne
    have hlen : (sortByPrio (tools.map fun t => (t, toolCachePriority))).length =
        (tools.map fun t => (t, toolCachePriority)).length := by
      rw [sortByPrio]
      exact List.length_mergeSort _
    rw [hnil] at hlen
    simp only [List.length_nil, List.length_map] at hlen
    exact List.length_eq_zero.mp hlen.symm

/-- C3 witness. -/
theorem cache_ceiling_respected_witness :
    ((prepare [⟨"system", .strC "hello"⟩] "q" "e" [⟨"t", false⟩]).system.countP (·.cached) +
      (prepare [⟨"system", .strC "hello"⟩] "q" "e" [⟨"t", false⟩]).tools.countP (·.cached) ≤
        maxCacheBlocks ∧
    (([⟨"t", false⟩] : List Tool) ≠ [] →
      0 < (prepare [⟨"system", .strC "hello"⟩] "q" "e" [⟨"t", false⟩]).tools.countP
        (·.cached))) :=
  cache_ceiling_respected [⟨"system", .strC "hello"⟩] "q" "e" [⟨"t", false⟩]
    (by decide) (by decide)

/-- C6 amended witness. -/
theorem health_false_process_exited_cleanup_witness :
    (checkServerHealth ⟨["s"], ["s"], [("s", true)], []⟩ "s"
        (fun _ => ⟨true, .toolsOk 1, false⟩) 0).verdict = false ∧
    "s" ∉ (checkServerHealth ⟨["s"], ["s"], [("s", true)], []⟩ "s"
        (fun _ => ⟨true, .toolsOk 1, false⟩) 0).reg.connected ∧
    ∀ q ∈ (checkServerHealth ⟨["s"], ["s"], [("s", true)], []⟩ "s"
        (fun _ => ⟨true, .toolsOk 1, false⟩) 0).reg.processes, q.1 ≠ "s" :=
  health_false_process_exited_cleanup ⟨["s"], ["s"], [("s", true)], []⟩ "s"
    (fun _ => ⟨true, .toolsOk 1, false⟩) 0 rfl (by simp) rfl

end CoachClaude
